import Mathlib

/-!
Verification of the core logic of the obsidian image-to-text plugin
(`src/main.ts`, with `unnamed/part_000` an earlier revision of the same file).

Strings are modelled as `List Char` (JS strings), byte buffers as
`List (Fin 256)` (JS `Uint8Array` views of `ArrayBuffer`), and the host
environment (canvas rotation, HTTP responses, `JSON.parse`, the vault file
set) as an explicit `Env` of oracles.  `processImage` is embedded as a pure
function from settings, environment, file and buffer to an `Outcome`
together with the ordered list of observable effects (network requests and
vault mutations) it performs.
-/

namespace ImageToText

/-- Shorthand: the character list underlying a string literal. -/
def toL (s : String) : List Char := s.toList

/-- The JavaScript whitespace class (`\s`, also the set removed by
`String.prototype.trim`): ASCII whitespace, NBSP, the Unicode space
separators, line/paragraph separators and the BOM. -/
def isJsWs (c : Char) : Bool :=
  let n := c.toNat
  n = 32 || n = 9 || n = 10 || n = 13 || n = 11 || n = 12 ||
  n = 160 || n = 0x1680 || (0x2000 ≤ n && n ≤ 0x200a) ||
  n = 0x2028 || n = 0x2029 || n = 0x202f || n = 0x205f || n = 0x3000 || n = 0xfeff

/-- JS `String.prototype.trim`: strip `isJsWs` characters from both ends. -/
def trimList (l : List Char) : List Char :=
  ((l.dropWhile isJsWs).reverse.dropWhile isJsWs).reverse

/-! ## Base64 codec (`arrayBufferToBase64`, src/main.ts lines 346-355) -/

/-- The standard base64 alphabet, in index order. -/
def base64Chars : List Char :=
  toL "ABCDEFGHIJKLMNOPQRSTUVWXYZabcdefghijklmnopqrstuvwxyz0123456789+/"

/-- Alphabet lookup used by the base64 encoder. -/
def b64c (i : Nat) : Char := base64Chars.getD i 'A'

/-- Base64 encoding of a sequence of byte values (the behaviour of the
platform `btoa` on a string of character codes `< 256`): groups of three
bytes become four alphabet characters, with `=` padding. -/
def encodeCodes : List Nat → List Char
  | [] => []
  | [b1] => [b64c (b1 / 4), b64c (b1 % 4 * 16), '=', '=']
  | [b1, b2] => [b64c (b1 / 4), b64c (b1 % 4 * 16 + b2 / 16), b64c (b2 % 16 * 4), '=']
  | b1 :: b2 :: b3 :: rest =>
    b64c (b1 / 4) :: b64c (b1 % 4 * 16 + b2 / 16) ::
    b64c (b2 % 16 * 4 + b3 / 64) :: b64c (b3 % 64) :: encodeCodes rest

/-- The platform `btoa`: fails (throws `InvalidCharacterError`) when some
character code of its argument exceeds 255, otherwise base64-encodes the
codes. -/
def btoa (codes : List Nat) : Option (List Char) :=
  if codes.all (fun n => n < 256) then some (encodeCodes codes) else none

/-- Chunk loop of `arrayBufferToBase64` with explicit fuel (the source
`for` loop advances `i` by `0x8000` per iteration and stops at the length,
so `l.length` iterations always suffice; the fuel only makes the recursion
structural). -/
def buildBinaryGo : Nat → List (Fin 256) → List Nat
  | _, [] => []
  | 0, _ :: _ => []
  | fuel + 1, a :: t =>
    ((a :: t).take 0x8000).map Fin.val ++ buildBinaryGo fuel ((a :: t).drop 0x8000)

/-- The chunked "binary string" construction of `arrayBufferToBase64`:
`String.fromCharCode` is applied to successive sub-arrays of at most
`0x8000` bytes and the results are concatenated.  The JS string is modelled
by its list of character codes. -/
def buildBinary (l : List (Fin 256)) : List Nat := buildBinaryGo l.length l

/-- `arrayBufferToBase64` (src/main.ts 346-355): build the binary string in
chunks of `0x8000` bytes, then `btoa` it.  The `btoa` call always succeeds
because every code comes from a `Uint8Array`. -/
def arrayBufferToBase64 (buffer : List (Fin 256)) : List Char :=
  (btoa (buildBinary buffer)).getD []

/-- Spec-side chunked binary-string construction with an arbitrary chunk
size `k + 1` (so chunks of "at most" any positive bound), used to state
that the result does not depend on the chunk boundaries. -/
def buildBinaryChunked (k : Nat) : List (Fin 256) → List Nat
  | [] => []
  | a :: t => ((a :: t).take (k + 1)).map Fin.val ++ buildBinaryChunked k ((a :: t).drop (k + 1))
  termination_by l => l.length
  decreasing_by simp [List.length_drop]; omega

/-- Spec-side chunked encoder with chunk size `k + 1`. -/
def chunkedBase64 (k : Nat) (buffer : List (Fin 256)) : List Char :=
  (btoa (buildBinaryChunked k buffer)).getD []

/-- The reference encoding: base64 of the whole buffer in one piece. -/
def base64Reference (buffer : List (Fin 256)) : List Char :=
  encodeCodes (buffer.map Fin.val)

theorem buildBinaryGo_eq_map :
    ∀ (fuel : Nat) (l : List (Fin 256)), l.length ≤ fuel →
      buildBinaryGo fuel l = l.map Fin.val := by
  intro fuel
  induction fuel with
  | zero =>
    intro l hl
    rw [List.length_eq_zero.mp (Nat.le_zero.mp hl)]
    rfl
  | succ n ih =>
    intro l hl
    cases l with
    | nil => rfl
    | cons a t =>
      rw [buildBinaryGo, ih _ (by simp [List.length_drop] at *; omega),
        ← List.map_append, List.take_append_drop]

theorem buildBinary_eq_map (l : List (Fin 256)) : buildBinary l = l.map Fin.val :=
  buildBinaryGo_eq_map l.length l le_rfl

theorem buildBinaryChunked_eq_map (k : Nat) (l : List (Fin 256)) :
    buildBinaryChunked k l = l.map Fin.val := by
  have H : ∀ n (l : List (Fin 256)), l.length ≤ n → buildBinaryChunked k l = l.map Fin.val := by
    intro n
    induction n with
    | zero =>
      intro l hl
      rw [List.length_eq_zero.mp (Nat.le_zero.mp hl)]
      simp [buildBinaryChunked]
    | succ n ih =>
      intro l hl
      cases l with
      | nil => simp [buildBinaryChunked]
      | cons a t =>
        rw [buildBinaryChunked, ih _ (by simp [List.length_drop] at *; omega),
          ← List.map_append, List.take_append_drop]
  exact H l.length l le_rfl

theorem btoa_map_val (l : List (Fin 256)) :
    btoa (l.map Fin.val) = some (encodeCodes (l.map Fin.val)) := by
  unfold btoa
  rw [if_pos]
  simp only [List.all_eq_true, List.mem_map]
  rintro n ⟨b, _, rfl⟩
  exact decide_eq_true b.isLt

/-- C8: the chunked base64 encoder agrees with the reference whole-buffer
encoding, for every buffer and independently of the chunk size. -/
theorem arrayBufferToBase64_correct (buffer : List (Fin 256)) :
    arrayBufferToBase64 buffer = base64Reference buffer ∧
    (∀ k : Nat, chunkedBase64 k buffer = base64Reference buffer) := by
  constructor
  · unfold arrayBufferToBase64 base64Reference
    rw [buildBinary_eq_map, btoa_map_val]
    rfl
  · intro k
    unfold chunkedBase64 base64Reference
    rw [buildBinaryChunked_eq_map, btoa_map_val]
    rfl

/-! ## JSON recovery (`extractJsonFromText` / `tryParseJson`, src/main.ts 56-91) -/

/-- The backtick character (code 96). -/
def btick : Char := Char.ofNat 96

/-- The `{` character. -/
def openBrace : Char := Char.ofNat 123

/-- The `}` character. -/
def closeBrace : Char := Char.ofNat 125

/-- `text.replace(/^﻿/, "")`: remove a single leading byte-order mark. -/
def stripLeadingBOM : List Char → List Char
  | [] => []
  | c :: rest => if c.toNat = 0xfeff then rest else c :: rest

/-- Leftmost-match search for the opening fence: returns the text after the
first occurrence of three consecutive backticks, or `none`. -/
def splitAtFence : List Char → Option (List Char)
  | [] => none
  | c :: rest =>
    match rest with
    | c2 :: c3 :: rest2 =>
      if c = btick ∧ c2 = btick ∧ c3 = btick then some rest2 else splitAtFence rest
    | _ => none

/-- Content up to (excluding) the next occurrence of three consecutive
backticks, or `none` when there is no closing fence. -/
def takeToFence : List Char → Option (List Char)
  | [] => none
  | c :: rest =>
    match rest with
    | c2 :: c3 :: _ =>
      if c = btick ∧ c2 = btick ∧ c3 = btick then some []
      else (takeToFence rest).map (fun l => c :: l)
    | _ => none

/-- The optional case-insensitive `json` tag directly after the opening
fence (`(?:json)?` under the `/i` flag). -/
def dropJsonTag (l : List Char) : List Char :=
  match l with
  | a :: b :: c :: d :: rest =>
    if a.toLower = 'j' ∧ b.toLower = 's' ∧ c.toLower = 'o' ∧ d.toLower = 'n'
    then rest else l
  | _ => l

/-- The capture group of the fence regex
`/(three backticks)(?:json)?\s*([\s\S]*?)\s*(three backticks)/i` on `t`
under leftmost-match semantics: the regex matches iff the first opening
fence has a closing fence after it, and the greedy `\s*` borders strip the
surrounding whitespace from the lazily-matched group. -/
def fenceExtract (t : List Char) : Option (List Char) :=
  match splitAtFence t with
  | none => none
  | some r =>
    match takeToFence (dropJsonTag r) with
    | none => none
    | some content => some (trimList content)

/-- JS `String.prototype.indexOf` for a single character. -/
def jsIndexOf (c : Char) (l : List Char) : Option Nat :=
  l.findIdx? (fun x => x = c)

/-- JS `String.prototype.lastIndexOf` for a single character. -/
def jsLastIndexOf (c : Char) (l : List Char) : Option Nat :=
  (l.reverse.findIdx? (fun x => x = c)).map (fun i => l.length - 1 - i)

/-- The brace-slice / raw-text fallback of `extractJsonFromText` (the part
after the fence test): slice from the first `{` to the last `}` inclusive
when the latter is strictly later, else return the trimmed text, or `none`
when that is empty. -/
def extractJsonBraces (t : List Char) : Option (List Char) :=
  match jsIndexOf openBrace t, jsLastIndexOf closeBrace t with
  | some fb, some lb =>
    if fb < lb then some (trimList ((t.drop fb).take (lb + 1 - fb)))
    else if trimList t = [] then none else some (trimList t)
  | _, _ => if trimList t = [] then none else some (trimList t)

/-- `extractJsonFromText` (src/main.ts 56-74): guard against the empty
string, strip a leading BOM and trim, then try in order the fenced block
(used only when its capture group is non-empty, i.e. truthy), the
first-`{`-to-last-`}` slice, and the trimmed text itself. -/
def extractJsonFromText (text : List Char) : Option (List Char) :=
  if text = [] then none
  else
    let t := trimList (stripLeadingBOM text)
    match fenceExtract t with
    | some g => if g = [] then extractJsonBraces t else some (trimList g)
    | none => extractJsonBraces t

/-- The result of the host `JSON.parse` on a contact reply, with every
field optional (absent JSON keys are `undefined`). -/
structure ParsedContact where
  name : Option (List Char)
  company : Option (List Char)
  position : Option (List Char)
  phones : Option (List (List Char))
  emails : Option (List (List Char))
  website : Option (List Char)
  address : Option (List Char)
  rawText : Option (List Char)
deriving DecidableEq

/-- The two failures of `tryParseJson`: no candidate extracted at all, or
`JSON.parse` threw (the error object carries the cleaned candidate and the
original text, per the `e.candidate` / `e.original` fields of
unnamed/part_000 lines 87-90). -/
inductive JsonParseError where
  | noJsonFound
  | jsonParseFailure (candidate : List Char) (original : List Char)
deriving DecidableEq

/-- `.replace(/^​/g, "")`: remove a single leading zero-width space
(the `^` anchor only matches at position 0). -/
def stripOneZwsp : List Char → List Char
  | [] => []
  | c :: rest => if c.toNat = 0x200b then rest else c :: rest

/-- The candidate cleaning of `tryParseJson`: drop a leading zero-width
space, replace every NBSP by a plain space, trim. -/
def cleanCandidate (cand : List Char) : List Char :=
  trimList ((stripOneZwsp cand).map (fun c => if c.toNat = 160 then ' ' else c))

/-- `tryParseJson` (src/main.ts 76-91): extract a candidate, clean it, and
hand it to the host `JSON.parse` (modelled by the oracle `parse`, `none`
meaning the parse threw). -/
def tryParseJson (parse : List Char → Option ParsedContact) (text : List Char) :
    Except JsonParseError ParsedContact :=
  match extractJsonFromText text with
  | none => .error .noJsonFound
  | some candidate =>
    let cleaned := cleanCandidate candidate
    match parse cleaned with
    | some v => .ok v
    | none => .error (.jsonParseFailure cleaned text)

/-! ## Readability scoring (`scoreImageReadability`, src/main.ts 398-459) -/

/-- Decimal digit test. -/
def isDigitChar (c : Char) : Bool := 48 ≤ c.toNat && c.toNat ≤ 57

/-- Value of a non-empty leading run of decimal digits, or `none`. -/
def leadingDecimal (l : List Char) : Option Nat :=
  let ds := l.takeWhile isDigitChar
  if ds = [] then none
  else some (ds.foldl (fun a c => a * 10 + (c.toNat - 48)) 0)

/-- JS `parseInt(text, 10)`: skip leading whitespace, read an optional
sign, then a non-empty run of decimal digits (trailing junk ignored);
`none` models `NaN`. -/
def jsParseInt (s : List Char) : Option Int :=
  let s1 := s.dropWhile isJsWs
  match s1 with
  | '-' :: rest => (leadingDecimal rest).map (fun n => -(n : Int))
  | '+' :: rest => (leadingDecimal rest).map (fun n => (n : Int))
  | _ => (leadingDecimal s1).map (fun n => (n : Int))

/-- The relevant part of an inference-API HTTP response: the status code
and `data?.choices?.[0]?.message?.content` (`none` when absent). -/
structure HttpResp where
  status : Nat
  content : Option (List Char)
deriving DecidableEq

/-- `scoreImageReadability` (src/main.ts 398-459), given the response
oracle for its request: throws (models both the `requestUrl` rejection and
the explicit status check) on a non-200 status, otherwise parses the reply
as a base-10 integer, defaulting to 0 when it is missing or non-numeric
(`Number.isFinite(NaN)` is false). -/
def scoreImageReadability (scoreResp : List Char → HttpResp) (base64 : List Char) :
    Except Nat Int :=
  let resp := scoreResp base64
  if resp.status ≠ 200 then .error resp.status
  else
    let text := resp.content.getD (toL "0")
    .ok ((jsParseInt text).getD 0)

/-! ## Rotation selection (`detectBestRotation`, src/main.ts 462-490) -/

/-- The fixed candidate list of `detectBestRotation`. -/
def rotationsList : List Nat := [0, 90, 180, 270]

/-- The candidate buffer for an angle: `deg === 0` short-circuits to the
original buffer, other angles go through the canvas rotation (here the
oracle `rotate`). -/
def candAt {β : Type} (rotate : Nat → β → β) (buffer : β) (deg : Nat) : β :=
  if deg = 0 then buffer else rotate deg buffer

/-- The loop body of `detectBestRotation`: fold over the remaining angles
carrying `(bestScore, bestRotation, bestBuffer)`; a throwing score call
aborts the loop.  Besides the result it returns the ordered trace of
`(angle, buffer)` pairs that were actually scored. -/
def detectLoop {β ε : Type} (rotate : Nat → β → β) (score : β → Except ε Int)
    (buffer : β) :
    List Nat → Int → Nat → β → Except ε (Nat × β) × List (Nat × β)
  | [], _, br, bb => (.ok (br, bb), [])
  | deg :: rest, bs, br, bb =>
    let rb := candAt rotate buffer deg
    match score rb with
    | .error e => (.error e, [(deg, rb)])
    | .ok s =>
      let next :=
        if bs < s then detectLoop rotate score buffer rest s deg rb
        else detectLoop rotate score buffer rest bs br bb
      (next.1, (deg, rb) :: next.2)

/-- `detectBestRotation` (src/main.ts 462-490): score the four rotations in
order with initial best score `-1` and keep the first strict improvement. -/
def detectBestRotation {β ε : Type} (rotate : Nat → β → β) (score : β → Except ε Int)
    (buffer : β) : Except ε (Nat × β) × List (Nat × β) :=
  detectLoop rotate score buffer rotationsList (-1) 0 buffer

/-- The selection rule in the words of the specification: the winning angle
is the earliest candidate whose score strictly beats every earlier score
and is not beaten by any later one, with `-1` as the floor and angle 0 as
the fallback when no candidate clears the floor. -/
def selectSpecAngle (s0 s1 s2 s3 : Int) : Nat :=
  if -1 < s0 ∧ s1 ≤ s0 ∧ s2 ≤ s0 ∧ s3 ≤ s0 then 0
  else if -1 < s1 ∧ s0 < s1 ∧ s2 ≤ s1 ∧ s3 ≤ s1 then 90
  else if -1 < s2 ∧ s0 < s2 ∧ s1 < s2 ∧ s3 ≤ s2 then 180
  else if -1 < s3 ∧ s0 < s3 ∧ s1 < s3 ∧ s2 < s3 then 270
  else 0

/-! ## File names and note paths (src/main.ts 93-95 and 267-281) -/

/-- The characters removed by `sanitizeFileName`. -/
def fileNameBannedChars : List Char :=
  ['\\', '/', ':', '"', '*', '?', '<', '>', '|']

/-- One character of the removal class. -/
def isBannedFileChar (c : Char) : Bool := fileNameBannedChars.contains c

/-- The global regex replacement `name.replace(/[\\/:"*?<>|]+/g, "")`:
every character of the class is removed, scanning left to right. -/
def removeBanned : List Char → List Char
  | [] => []
  | c :: rest => if isBannedFileChar c then removeBanned rest else c :: removeBanned rest

/-- `sanitizeFileName` (src/main.ts 93-95): remove the unsafe characters,
trim, and fall back to the literal `contact` when the result is empty. -/
def sanitizeFileName (name : List Char) : List Char :=
  let r := trimList (removeBanned name)
  if r = [] then toL "contact" else r

/-- ASCII digit character for a value below ten. -/
def digitChar (d : Nat) : Char := Char.ofNat (48 + d)

/-- Accumulator loop of the decimal rendering of a natural number, with
explicit fuel (`n` itself always suffices since a number has at most `n`
decimal digits; the fuel only makes the recursion structural). -/
def natToDecimalGo : Nat → Nat → List Char → List Char
  | 0, n, acc => digitChar n :: acc
  | fuel + 1, n, acc =>
    if n < 10 then digitChar n :: acc
    else natToDecimalGo fuel (n / 10) (digitChar (n % 10) :: acc)

/-- Decimal rendering of a natural number, as JS template interpolation
`(1)`, `(2)`, … produces it. -/
def natToDecimal (n : Nat) : List Char := natToDecimalGo n n []

/-- Spec-side decoder of a decimal digit string, used to show that the
rendering is injective (distinct counters give distinct candidate
paths). -/
def decodeDec (l : List Char) : Nat :=
  l.foldl (fun a c => a * 10 + (c.toNat - 48)) 0

/-- The candidate note paths probed in order: `<folder>/<safeName>.md`,
then `<folder>/<safeName> (1).md`, `<folder>/<safeName> (2).md`, … -/
def noteCandidate (folder safeName : List Char) : Nat → List Char
  | 0 => folder ++ toL "/" ++ safeName ++ toL ".md"
  | n + 1 => folder ++ toL "/" ++ safeName ++ toL " (" ++ (natToDecimal (n + 1) ++ toL ").md")

/-- The `while (this.app.vault.getAbstractFileByPath(newPath))` probe,
with explicit fuel (the source loop terminates because the vault is
finite; `paths.length + 1` probes always reach a free path). -/
def probeLoop (paths : List (List Char)) (folder safeName : List Char) :
    Nat → Nat → List Char
  | 0, n => noteCandidate folder safeName n
  | fuel + 1, n =>
    if noteCandidate folder safeName n ∈ paths
    then probeLoop paths folder safeName fuel (n + 1)
    else noteCandidate folder safeName n

/-- The collision handling of `processImage` (src/main.ts 267-281): take
`<folder>/<safeName>.md`; when that path is occupied, probe the numbered
variants starting from ` (1)` and keep the first free one. -/
def resolveNotePath (paths : List (List Char)) (folder safeName : List Char) : List Char :=
  let base := noteCandidate folder safeName 0
  if base ∈ paths then probeLoop paths folder safeName (paths.length + 1) 1 else base

/-! ## File metadata and MIME types (src/main.ts 120-138) -/

/-- The slice of Obsidian's `TFile` that `processImage` consumes. -/
structure TFile where
  basename : List Char
  extension : List Char
  parentPath : Option (List Char)
deriving DecidableEq

/-- `getMimeType` (src/main.ts 121-138): switch on the lowercased file
extension, defaulting to `image/jpeg`. -/
def getMimeType (file : TFile) : List Char :=
  let ext := file.extension.map Char.toLower
  if ext = toL "jpg" then toL "image/jpeg"
  else if ext = toL "jpeg" then toL "image/jpeg"
  else if ext = toL "png" then toL "image/png"
  else if ext = toL "gif" then toL "image/gif"
  else if ext = toL "webp" then toL "image/webp"
  else if ext = toL "bmp" then toL "image/bmp"
  else toL "image/jpeg"

/-! ## Note composition (src/main.ts 153-159 and 241-264) -/

/-- JS `x || "-"` applied to an optional string field: absent and empty
strings are falsy and render as the dash placeholder. -/
def orDash (o : Option (List Char)) : List Char :=
  match o with
  | some s => if s = [] then toL "-" else s
  | none => toL "-"

/-- JS `x || ""` applied to an optional string field. -/
def orEmpty (o : Option (List Char)) : List Char :=
  match o with
  | some s => s
  | none => []

/-- Join a list of lines with newline separators (JS `Array.join("\n")`). -/
def joinNL : List (List Char) → List Char
  | [] => []
  | [x] => x
  | x :: y :: rest => x ++ '\n' :: joinNL (y :: rest)

/-- The phone/email block: `xs?.length ? xs.map(p => "- " + p).join("\n") : "-"` —
one bulleted line per entry, or a dash when the array is absent or empty. -/
def bulletBlock (o : Option (List (List Char))) : List Char :=
  match o with
  | some (x :: xs) => joinNL ((x :: xs).map (fun p => toL "- " ++ p))
  | _ => toL "-"

/-- The markdown image embed `![<basename>](<dataUrl>)` built at
src/main.ts 153-159: an inline base64 data URL labelled with the MIME type
derived from the extension, with the file's original basename as alt
text. -/
def mkImageEmbed (basename mime b64 : List Char) : List Char :=
  toL "![" ++ basename ++ toL "](data:" ++ mime ++ toL ";base64," ++ b64 ++ toL ")"

/-- The note body template of `processImage` (src/main.ts 255-264),
transcribed label for label. -/
def composeNote (parsed : ParsedContact) (imageEmbed : List Char) : List Char :=
  toL "**Компания:** " ++ orDash parsed.company ++
  toL "\n**Должность:** " ++ orDash parsed.position ++
  toL "\n**Телефоны:**\n" ++ bulletBlock parsed.phones ++
  toL "\n**Email:**\n" ++ bulletBlock parsed.emails ++
  toL "\n**Website:** " ++ orDash parsed.website ++
  toL "\n**Адрес:** " ++ orDash parsed.address ++
  toL "\n\n---\n\n**Полный текст визитки:**\n" ++ orEmpty parsed.rawText ++
  toL "\n" ++ imageEmbed

/-- The note body in the specification's terms: the fixed ordered sequence
of sections — company, position, phone list, email list, website, address,
a horizontal rule, the raw recognized text, then the image embed — joined
by newlines. -/
def renderSpec (parsed : ParsedContact) (imageEmbed : List Char) : List Char :=
  joinNL
    [toL "**Компания:** " ++ orDash parsed.company,
     toL "**Должность:** " ++ orDash parsed.position,
     toL "**Телефоны:**",
     bulletBlock parsed.phones,
     toL "**Email:**",
     bulletBlock parsed.emails,
     toL "**Website:** " ++ orDash parsed.website,
     toL "**Адрес:** " ++ orDash parsed.address,
     [],
     toL "---",
     [],
     toL "**Полный текст визитки:**",
     orEmpty parsed.rawText,
     imageEmbed]

/-! ## The pipeline (`processImage`, src/main.ts 140-293) -/

/-- The two persisted settings. -/
structure Settings where
  openaiApiKey : List Char
  model : List Char

/-- The host environment `processImage` runs against: the canvas rotation,
the HTTP responses to the scoring and extraction requests (keyed by the
base64 payload), the host `JSON.parse`, the set of existing vault paths,
whether `vault.create` succeeds, and whether a trash capability is
available (Obsidian offers `vault.trash`; the flag is never consulted by
the code, which is the point of one of the claims below). -/
structure Env where
  rotate : Nat → List (Fin 256) → List (Fin 256)
  scoreResp : List Char → HttpResp
  extractResp : List Char → HttpResp
  jsonParse : List Char → Option ParsedContact
  vaultPaths : List (List Char)
  createOk : Bool
  trashAvailable : Bool

/-- The observable effects of one `processImage` run, in program order. -/
inductive Effect where
  | netScoreRequest (model url : List Char)
  | netExtractRequest (model url : List Char)
  | vaultRename (oldName newName : List Char)
  | vaultCreate (path content : List Char)
  | vaultTrash (path : List Char)
  | vaultDelete (path : List Char)
deriving DecidableEq

/-- How one `processImage` run ends. -/
inductive Outcome where
  | success (rotation : Nat) (notePath noteContent imgName : List Char)
  | missingKey
  | scoringFailed (status : Nat)
  | extractHttpFailed (status : Nat)
  | parseFailed (e : JsonParseError)
  | createFailed
deriving DecidableEq

/-- Network effect test. -/
def isNetEffect : Effect → Bool
  | .netScoreRequest _ _ => true
  | .netExtractRequest _ _ => true
  | _ => false

/-- Vault mutation test (rename, create, trash or delete). -/
def isVaultMutation : Effect → Bool
  | .vaultRename _ _ => true
  | .vaultCreate _ _ => true
  | .vaultTrash _ => true
  | .vaultDelete _ => true
  | _ => false

/-- Delete effect test. -/
def isDeleteEffect : Effect → Bool
  | .vaultDelete _ => true
  | _ => false

/-- Create effect test. -/
def isCreateEffect : Effect → Bool
  | .vaultCreate _ _ => true
  | _ => false

/-- Trash effect test. -/
def isTrashEffect : Effect → Bool
  | .vaultTrash _ => true
  | _ => false

/-- Every effect of the list is a network request. -/
def allNet (l : List Effect) : Prop := ∀ x ∈ l, isNetEffect x = true

/-- The network request of one readability-scoring call (src/main.ts
402-446): the payload hardcodes the model name `gpt-4o-mini` and the data
URL label `image/jpeg`. -/
def scoreEffect (b : List (Fin 256)) : Effect :=
  .netScoreRequest (toL "gpt-4o-mini") (toL "data:image/jpeg;base64," ++ arrayBufferToBase64 b)

/-- The fallback of `parsed.name?.trim() || file.basename || "Unknown Contact"`. -/
def contactName (parsed : ParsedContact) (file : TFile) : List Char :=
  let fb := if file.basename = [] then toL "Unknown Contact" else file.basename
  match parsed.name with
  | some s => if trimList s = [] then fb else trimList s
  | none => fb

/-- `processImage` (src/main.ts 140-293): rotation detection (four scoring
round trips), the api-key guard, the extraction request, JSON recovery,
file-name derivation, the image rename, note composition, the collision
probe, note creation and finally the image delete.  Any thrown error is
caught by the surrounding `try`/`catch`, which only notifies; the function
returns the outcome together with the ordered effect trace. -/
def processImage (settings : Settings) (env : Env) (file : TFile)
    (buffer : List (Fin 256)) : Outcome × List Effect :=
  let mimeType := getMimeType file
  let det := detectBestRotation env.rotate
    (fun b => scoreImageReadability env.scoreResp (arrayBufferToBase64 b)) buffer
  let scoreEffs := det.2.map (fun p => scoreEffect p.2)
  match det.1 with
  | .error st => (.scoringFailed st, scoreEffs)
  | .ok (rotation, best) =>
    let base64 := arrayBufferToBase64 best
    let imageEmbed := mkImageEmbed file.basename mimeType base64
    if settings.openaiApiKey = [] then (.missingKey, scoreEffs)
    else
      let effs2 := scoreEffs ++
        [.netExtractRequest (toL "gpt-4o-mini") (toL "data:image/jpeg;base64," ++ base64)]
      let resp := env.extractResp base64
      if resp.status ≠ 200 then (.extractHttpFailed resp.status, effs2)
      else
        let content := resp.content.getD (toL "\x7b\x7d")
        match tryParseJson env.jsonParse content with
        | .error e => (.parseFailed e, effs2)
        | .ok parsed =>
          let safeName := sanitizeFileName (contactName parsed file)
          let imgName := safeName ++ toL "." ++ file.extension
          let effs3 := effs2 ++
            [.vaultRename (file.basename ++ toL "." ++ file.extension) imgName]
          let noteContent := composeNote parsed imageEmbed
          let folder := file.parentPath.getD []
          let notePath := resolveNotePath env.vaultPaths folder safeName
          if env.createOk then
            (.success rotation notePath noteContent imgName,
             effs3 ++ [.vaultCreate notePath noteContent, .vaultDelete imgName])
          else (.createFailed, effs3)

/-! ## Concrete fixtures used by witnesses and counterexamples -/

/-- A parsed contact used in concrete runs. -/
def pcW : ParsedContact :=
  ⟨some (toL "J"), none, none, some [toL "555"], some [], none, none, some (toL "txt")⟩

/-- Environment of a fully successful run: identity rotation oracle, every
scoring reply `5`, extraction reply a small JSON object that the parse
oracle accepts. -/
def envW : Env :=
  ⟨fun _ b => b, fun _ => ⟨200, some (toL "5")⟩,
   fun _ => ⟨200, some (toL "\x7b\"name\":\"J\"\x7d")⟩,
   fun s => if s = toL "\x7b\"name\":\"J\"\x7d" then some pcW else none,
   [], true, true⟩

/-- Environment whose extraction call returns HTTP 500. -/
def envX : Env :=
  ⟨fun _ b => b, fun _ => ⟨200, some (toL "5")⟩, fun _ => ⟨500, none⟩,
   fun _ => none, [], true, true⟩

/-- Environment whose extraction reply contains no JSON at all. -/
def envP : Env :=
  ⟨fun _ b => b, fun _ => ⟨200, some (toL "5")⟩,
   fun _ => ⟨200, some (toL "no json here")⟩,
   fun _ => none, [], true, true⟩

/-- The successful environment, but with `vault.create` failing. -/
def envNC : Env :=
  ⟨fun _ b => b, fun _ => ⟨200, some (toL "5")⟩,
   fun _ => ⟨200, some (toL "\x7b\"name\":\"J\"\x7d")⟩,
   fun s => if s = toL "\x7b\"name\":\"J\"\x7d" then some pcW else none,
   [], false, true⟩

/-- A jpg image file in folder `f`. -/
def fW : TFile := ⟨toL "c", toL "jpg", some (toL "f")⟩

/-- A png image file in folder `f` (used to exhibit the MIME mismatch). -/
def fPng : TFile := ⟨toL "card", toL "png", some (toL "f")⟩

/-- Settings with a key configured and the model set to `gpt-4o`. -/
def sW : Settings := ⟨toL "sk-x", toL "gpt-4o"⟩

/-- Settings with an empty api key. -/
def sEmpty : Settings := ⟨[], toL "gpt-4o-mini"⟩

/-- A three-byte image buffer (base64 `AQID`). -/
def bW : List (Fin 256) := [1, 2, 3]

/-- The note body produced by the successful fixture run. -/
def ncW : List Char :=
  toL "**Компания:** -\n**Должность:** -\n**Телефоны:**\n- 555\n**Email:**\n-\n**Website:** -\n**Адрес:** -\n\n---\n\n**Полный текст визитки:**\ntxt\n![c](data:image/jpeg;base64,AQID)"

/-- Rotation oracle used in the C1 witness. -/
def rotW : Nat → Int → Int := fun d b => b + (d : Int)

/-- Score oracle used in the C1 witness: the buffer value itself. -/
def scW : Int → Except Nat Int := fun b => .ok b

/-- Score-response oracle with a missing reply, used in the C4 witness. -/
def respNone : List Char → HttpResp := fun _ => ⟨200, none⟩

/-- Score-response oracle whose reply is the numeral `15`. -/
def resp15 : List Char → HttpResp := fun _ => ⟨200, some (toL "15")⟩

/-! ## Helper lemmas -/

theorem composeNote_eq_renderSpec (pc : ParsedContact) (e : List Char) :
    composeNote pc e = renderSpec pc e := by
  simp [composeNote, renderSpec, joinNL, toL, List.append_assoc]

theorem allNet_scoreEffs (l : List (Nat × List (Fin 256))) :
    allNet (l.map (fun p => scoreEffect p.2)) := by
  intro x hx
  simp only [List.mem_map] at hx
  obtain ⟨p, _, rfl⟩ := hx
  rfl

theorem allNet_append_extract (l : List Effect) (m u : List Char) (h : allNet l) :
    allNet (l ++ [.netExtractRequest m u]) := by
  intro x hx
  rcases List.mem_append.mp hx with h1 | h1
  · exact h x h1
  · simp at h1
    subst h1
    rfl

theorem processImage_shape (s : Settings) (e : Env) (f : TFile) (b : List (Fin 256)) :
    ((∃ st, (processImage s e f b).1 = .scoringFailed st) ∧ allNet (processImage s e f b).2) ∨
    ((processImage s e f b).1 = .missingKey ∧ allNet (processImage s e f b).2) ∨
    ((∃ st, (processImage s e f b).1 = .extractHttpFailed st) ∧ allNet (processImage s e f b).2) ∨
    ((∃ er, (processImage s e f b).1 = .parseFailed er) ∧ allNet (processImage s e f b).2) ∨
    ((processImage s e f b).1 = .createFailed ∧
      ∃ nets old img, (processImage s e f b).2 = nets ++ [.vaultRename old img] ∧ allNet nets) ∨
    (∃ r p nc img nets parsed b64,
      (processImage s e f b).1 = .success r p nc img ∧
      (processImage s e f b).2 = nets ++
        [.vaultRename (f.basename ++ toL "." ++ f.extension) img,
         .vaultCreate p nc, .vaultDelete img] ∧
      allNet nets ∧
      nc = composeNote parsed (mkImageEmbed f.basename (getMimeType f) b64) ∧
      img = sanitizeFileName (contactName parsed f) ++ toL "." ++ f.extension ∧
      p = resolveNotePath e.vaultPaths (f.parentPath.getD [])
            (sanitizeFileName (contactName parsed f)) ∧
      e.createOk = true) := by
  rcases hd : (detectBestRotation e.rotate
      (fun b => scoreImageReadability e.scoreResp (arrayBufferToBase64 b)) b).1 with st | rb
  · left
    refine ⟨⟨st, ?_⟩, ?_⟩ <;> simp only [processImage, hd]
    exact allNet_scoreEffs _
  · obtain ⟨r, best⟩ := rb
    by_cases hkey : s.openaiApiKey = []
    · right; left
      refine ⟨?_, ?_⟩ <;> simp only [processImage, hd, hkey, if_pos]
      exact allNet_scoreEffs _
    · by_cases hst : (e.extractResp (arrayBufferToBase64 best)).status ≠ 200
      · right; right; left
        refine ⟨⟨(e.extractResp (arrayBufferToBase64 best)).status, ?_⟩, ?_⟩ <;>
          simp only [processImage, hd, if_neg hkey, if_pos hst]
        exact allNet_append_extract _ _ _ (allNet_scoreEffs _)
      · rcases hp : tryParseJson e.jsonParse
            ((e.extractResp (arrayBufferToBase64 best)).content.getD (toL "\x7b\x7d")) with er | parsed
        · right; right; right; left
          refine ⟨⟨er, ?_⟩, ?_⟩ <;>
            simp only [processImage, hd, if_neg hkey, if_neg hst, hp]
          exact allNet_append_extract _ _ _ (allNet_scoreEffs _)
        · by_cases hc : e.createOk = true
          · right; right; right; right; right
            refine ⟨r,
              resolveNotePath e.vaultPaths (f.parentPath.getD [])
                (sanitizeFileName (contactName parsed f)),
              composeNote parsed
                (mkImageEmbed f.basename (getMimeType f) (arrayBufferToBase64 best)),
              sanitizeFileName (contactName parsed f) ++ toL "." ++ f.extension,
              (detectBestRotation e.rotate
                  (fun b => scoreImageReadability e.scoreResp (arrayBufferToBase64 b)) b).2.map
                  (fun p => scoreEffect p.2) ++
                [.netExtractRequest (toL "gpt-4o-mini")
                  (toL "data:image/jpeg;base64," ++ arrayBufferToBase64 best)],
              parsed, arrayBufferToBase64 best, ?_, ?_,
              allNet_append_extract _ _ _ (allNet_scoreEffs _), rfl, rfl, rfl, hc⟩ <;>
              simp only [processImage, hd, if_neg hkey, if_neg hst, hp, hc, if_pos,
                List.append_assoc, List.cons_append, List.nil_append]
          · right; right; right; right; left
            refine ⟨?_,
              (detectBestRotation e.rotate
                  (fun b => scoreImageReadability e.scoreResp (arrayBufferToBase64 b)) b).2.map
                  (fun p => scoreEffect p.2) ++
                [.netExtractRequest (toL "gpt-4o-mini")
                  (toL "data:image/jpeg;base64," ++ arrayBufferToBase64 best)],
              f.basename ++ toL "." ++ f.extension,
              sanitizeFileName (contactName parsed f) ++ toL "." ++ f.extension,
              ?_, allNet_append_extract _ _ _ (allNet_scoreEffs _)⟩ <;>
              simp only [processImage, hd, if_neg hkey, if_neg hst, hp, hc,
                Bool.false_eq_true, if_false, List.append_assoc, List.cons_append,
                List.nil_append]

theorem detectLoop_cons_ok {β ε : Type} (rotate : Nat → β → β)
    (score : β → Except ε Int) (buffer : β) (deg : Nat) (rest : List Nat)
    (bs : Int) (br : Nat) (bb : β) (s : Int)
    (h : score (candAt rotate buffer deg) = .ok s) :
    detectLoop rotate score buffer (deg :: rest) bs br bb =
      ((detectLoop rotate score buffer rest (if bs < s then s else bs)
          (if bs < s then deg else br)
          (if bs < s then candAt rotate buffer deg else bb)).1,
       (deg, candAt rotate buffer deg) ::
       (detectLoop rotate score buffer rest (if bs < s then s else bs)
          (if bs < s then deg else br)
          (if bs < s then candAt rotate buffer deg else bb)).2) := by
  simp only [detectLoop, h]
  split_ifs <;> rfl

/-- C1: `detectBestRotation` scores exactly the four candidates 0°, 90°,
180°, 270° in that fixed order (the 0° candidate being the original
buffer), and returns the angle selected by the specification's rule — the
earliest candidate whose score strictly beats all earlier scores and is at
least every later score, with initial best score `-1` so that angle 0 and
the original, un-re-encoded buffer are returned whenever no candidate
improves on it — together with that candidate's buffer. -/
theorem detectBestRotation_spec {β ε : Type} (rotate : Nat → β → β)
    (score : β → Except ε Int) (buffer : β) (s0 s1 s2 s3 : Int)
    (h0 : score (candAt rotate buffer 0) = .ok s0)
    (h90 : score (candAt rotate buffer 90) = .ok s1)
    (h180 : score (candAt rotate buffer 180) = .ok s2)
    (h270 : score (candAt rotate buffer 270) = .ok s3) :
    (detectBestRotation rotate score buffer).2 =
      [(0, candAt rotate buffer 0), (90, candAt rotate buffer 90),
       (180, candAt rotate buffer 180), (270, candAt rotate buffer 270)] ∧
    (detectBestRotation rotate score buffer).1 =
      .ok (selectSpecAngle s0 s1 s2 s3,
           candAt rotate buffer (selectSpecAngle s0 s1 s2 s3)) ∧
    candAt rotate buffer 0 = buffer := by
  unfold detectBestRotation rotationsList
  rw [detectLoop_cons_ok rotate score buffer 0 _ _ _ _ s0 h0,
      detectLoop_cons_ok rotate score buffer 90 _ _ _ _ s1 h90,
      detectLoop_cons_ok rotate score buffer 180 _ _ _ _ s2 h180,
      detectLoop_cons_ok rotate score buffer 270 _ _ _ _ s3 h270]
  refine ⟨rfl, ?_, rfl⟩
  unfold selectSpecAngle
  simp only [detectLoop]
  split_ifs <;> first | rfl | (exfalso; omega)

/-- C4 counterexample: a model reply of `15` makes `scoreImageReadability`
return 15, which is outside the claimed range `[0, 10]`. -/
theorem scoreImageReadability_out_of_range :
    scoreImageReadability resp15 (toL "AQID") = .ok 15 ∧ ¬((15 : Int) ≤ 10) :=
  ⟨rfl, by decide⟩

/-- C4 (amended): with a 200 response, `scoreImageReadability` returns the
`parseInt` value of the reply — unclamped, so it lies in `[0, 10]` only
when the reply's number does — and returns 0 when the reply is missing or
non-numeric, never failing the caller. -/
theorem scoreImageReadability_parse (scoreResp : List Char → HttpResp)
    (b64 : List Char) (h : (scoreResp b64).status = 200) :
    scoreImageReadability scoreResp b64 =
      .ok ((jsParseInt ((scoreResp b64).content.getD (toL "0"))).getD 0) ∧
    ((scoreResp b64).content = none → scoreImageReadability scoreResp b64 = .ok 0) ∧
    (∀ t, (scoreResp b64).content = some t → jsParseInt t = none →
      scoreImageReadability scoreResp b64 = .ok 0) := by
  refine ⟨?_, ?_, ?_⟩
  · unfold scoreImageReadability
    simp [h]
  · intro hc
    unfold scoreImageReadability
    simp [h, hc]
    decide
  · intro t ht hn
    unfold scoreImageReadability
    simp [h, ht, hn]

/-- C4 witness: a missing reply yields score 0. -/
theorem scoreImageReadability_parse_witness :
    scoreImageReadability respNone (toL "x") =
      .ok ((jsParseInt ((respNone (toL "x")).content.getD (toL "0"))).getD 0) ∧
    ((respNone (toL "x")).content = none →
      scoreImageReadability respNone (toL "x") = .ok 0) ∧
    (∀ t, (respNone (toL "x")).content = some t → jsParseInt t = none →
      scoreImageReadability respNone (toL "x") = .ok 0) :=
  scoreImageReadability_parse respNone (toL "x") rfl

/-- C1 witness: a concrete run where 270° wins. -/
theorem detectBestRotation_spec_witness :
    (detectBestRotation rotW scW (5 : Int)).2 =
      [(0, candAt rotW (5 : Int) 0), (90, candAt rotW (5 : Int) 90),
       (180, candAt rotW (5 : Int) 180), (270, candAt rotW (5 : Int) 270)] ∧
    (detectBestRotation rotW scW (5 : Int)).1 =
      .ok (selectSpecAngle 5 95 185 275,
           candAt rotW (5 : Int) (selectSpecAngle 5 95 185 275)) ∧
    candAt rotW (5 : Int) 0 = 5 :=
  detectBestRotation_spec rotW scW 5 5 95 185 275 rfl rfl rfl rfl

theorem isNet_not_mutation (x : Effect) (h : isNetEffect x = true) :
    isVaultMutation x = false ∧ isDeleteEffect x = false ∧
    isCreateEffect x = false ∧ isTrashEffect x = false := by
  cases x <;>
    simp_all [isNetEffect, isVaultMutation, isDeleteEffect, isCreateEffect, isTrashEffect]

theorem allNet_no_vault (l : List Effect) (h : allNet l) :
    (l.all fun x => !isVaultMutation x) = true := by
  rw [List.all_eq_true]
  intro x hx
  simp [(isNet_not_mutation x (h x hx)).1]

/-- C10: whenever the extraction HTTP call returns a non-success status or
JSON recovery/parsing of the contact reply fails, `processImage` performs
no vault mutation at all — no rename, no note creation, no delete. -/
theorem processImage_failure_no_vault_mutation (s : Settings) (e : Env) (f : TFile)
    (b : List (Fin 256))
    (h : (∃ st, (processImage s e f b).1 = .extractHttpFailed st) ∨
         (∃ er, (processImage s e f b).1 = .parseFailed er)) :
    ((processImage s e f b).2.all fun x => !isVaultMutation x) = true := by
  rcases processImage_shape s e f b with
    ⟨_, hn⟩ | ⟨_, hn⟩ | ⟨_, hn⟩ | ⟨_, hn⟩ |
    ⟨ho, _⟩ | ⟨r, p, nc, img, nets, parsed, b64, ho, _⟩
  · exact allNet_no_vault _ hn
  · exact allNet_no_vault _ hn
  · exact allNet_no_vault _ hn
  · exact allNet_no_vault _ hn
  · rcases h with ⟨st, heq⟩ | ⟨er, heq⟩ <;> rw [ho] at heq <;> exact Outcome.noConfusion heq
  · rcases h with ⟨st, heq⟩ | ⟨er, heq⟩ <;> rw [ho] at heq <;> exact Outcome.noConfusion heq

/-- C10 witness: a run whose extraction call returns HTTP 500 leaves every
vault file untouched. -/
theorem processImage_failure_no_vault_mutation_witness :
    ((processImage sW envX fW bW).2.all fun x => !isVaultMutation x) = true :=
  processImage_failure_no_vault_mutation sW envX fW bW (Or.inl ⟨500, rfl⟩)

/-- C3: with an empty api key the pipeline still issues the four
rotation-scoring network requests — the key guard sits after
`detectBestRotation` — and only then returns; no vault file is renamed,
created or deleted. -/
theorem processImage_emptyKey_network :
    (processImage sEmpty envW fW bW).1 = .missingKey ∧
    (processImage sEmpty envW fW bW).2.length = 4 ∧
    ((processImage sEmpty envW fW bW).2.all
      fun x => isNetEffect x && !isVaultMutation x) = true ∧
    (processImage sEmpty envW fW bW).2 ≠ [] :=
  ⟨rfl, rfl, rfl, by decide⟩

/-- C9: the outbound request payloads hardcode the model `gpt-4o-mini` and
the data-URL MIME label `image/jpeg`: with the model setting `gpt-4o` and a
`png` asset, both the scoring and the extraction request still carry
`gpt-4o-mini` and `data:image/jpeg;...`, disagreeing with the configured
model and with the MIME type `getMimeType` derives. -/
theorem extractRequest_hardcoded_model_mime :
    sW.model = toL "gpt-4o" ∧
    getMimeType fPng = toL "image/png" ∧
    ((processImage sW envX fPng bW).2.contains
      (.netExtractRequest (toL "gpt-4o-mini") (toL "data:image/jpeg;base64,AQID"))) = true ∧
    ((processImage sW envX fPng bW).2.contains
      (.netScoreRequest (toL "gpt-4o-mini") (toL "data:image/jpeg;base64,AQID"))) = true ∧
    toL "gpt-4o-mini" ≠ sW.model ∧
    toL "data:image/jpeg;base64,AQID" =
      toL "data:image/jpeg" ++ toL ";base64," ++ arrayBufferToBase64 bW ∧
    toL "image/jpeg" ≠ getMimeType fPng :=
  ⟨rfl, rfl, rfl, rfl, by decide, by decide, by decide⟩

theorem allNet_all_bnot (l : List Effect) (h : allNet l) (P : Effect → Bool)
    (hP : ∀ x, isNetEffect x = true → P x = false) :
    (l.all fun x => !P x) = true := by
  rw [List.all_eq_true]
  intro x hx
  simp [hP x (h x hx)]

/-- C7 counterexample: the host trash capability is available
(`envW.trashAvailable = true`), yet the successful run removes the image
with a hard delete and never emits a trash operation. -/
theorem imageRemoval_never_trashed :
    envW.trashAvailable = true ∧
    ((processImage sW envW fW bW).2.any isDeleteEffect) = true ∧
    ((processImage sW envW fW bW).2.any isTrashEffect) = false :=
  ⟨rfl, rfl, rfl⟩

/-- C7 (amended): the image is removed by a hard delete (never a trash
operation), and only immediately after the note has been created — the
trace can contain a delete only as the final element of a
`[create, delete]` suffix; when note creation fails no delete happens. -/
theorem noteCreate_before_delete (s : Settings) (e : Env) (f : TFile)
    (b : List (Fin 256)) :
    ((∃ q, Effect.vaultDelete q ∈ (processImage s e f b).2) →
      ∃ l p c q, (processImage s e f b).2 = l ++ [.vaultCreate p c, .vaultDelete q] ∧
        (l.all fun x => !isDeleteEffect x && !isCreateEffect x) = true) ∧
    (e.createOk = false →
      ((processImage s e f b).2.all fun x => !isDeleteEffect x) = true) ∧
    ((processImage s e f b).2.all fun x => !isTrashEffect x) = true := by
  rcases processImage_shape s e f b with
    ⟨_, hn⟩ | ⟨_, hn⟩ | ⟨_, hn⟩ | ⟨_, hn⟩ |
    ⟨_, nets, old, img, heff, hn⟩ |
    ⟨r, p, nc, img, nets, parsed, b64, _, heff, hn, _, _, _, hcr⟩
  case _ | _ | _ | _ =>
    refine ⟨?_, fun _ => ?_, ?_⟩
    · rintro ⟨q, hq⟩
      have := hn _ hq
      simp [isNetEffect] at this
    · exact allNet_all_bnot _ hn _ (fun x hx => (isNet_not_mutation x hx).2.1)
    · exact allNet_all_bnot _ hn _ (fun x hx => (isNet_not_mutation x hx).2.2.2)
  case _ =>
    rw [heff]
    refine ⟨?_, fun _ => ?_, ?_⟩
    · rintro ⟨q, hq⟩
      rcases List.mem_append.mp hq with h1 | h1
      · have := hn _ h1
        simp [isNetEffect] at this
      · simp at h1
    · rw [List.all_append,
        allNet_all_bnot _ hn _ (fun x hx => (isNet_not_mutation x hx).2.1)]
      rfl
    · rw [List.all_append,
        allNet_all_bnot _ hn _ (fun x hx => (isNet_not_mutation x hx).2.2.2)]
      rfl
  case _ =>
    rw [heff]
    refine ⟨fun _ => ?_, fun hfalse => ?_, ?_⟩
    · refine ⟨nets ++ [.vaultRename (f.basename ++ toL "." ++ f.extension) img],
        p, nc, img, by simp, ?_⟩
      have h1 : (nets.all fun x => !isDeleteEffect x && !isCreateEffect x) = true := by
        rw [List.all_eq_true]
        intro x hx
        have h2 := isNet_not_mutation x (hn x hx)
        simp [h2.2.1, h2.2.2.1]
      rw [List.all_append, h1]
      rfl
    · rw [hcr] at hfalse
      exact Bool.noConfusion hfalse
    · rw [List.all_append,
        allNet_all_bnot _ hn _ (fun x hx => (isNet_not_mutation x hx).2.2.2)]
      rfl

/-- C7 witness: the successful run ends with `[create, delete]`, and the
run with a failing `vault.create` deletes nothing. -/
theorem noteCreate_before_delete_witness :
    (∃ l p c q, (processImage sW envW fW bW).2 = l ++ [.vaultCreate p c, .vaultDelete q] ∧
      (l.all fun x => !isDeleteEffect x && !isCreateEffect x) = true) ∧
    ((processImage sW envNC fW bW).2.all fun x => !isDeleteEffect x) = true ∧
    ((processImage sW envW fW bW).2.all fun x => !isTrashEffect x) = true :=
  ⟨(noteCreate_before_delete sW envW fW bW).1 ⟨toL "J.jpg", by decide⟩,
   (noteCreate_before_delete sW envNC fW bW).2.1 rfl,
   (noteCreate_before_delete sW envW fW bW).2.2⟩

set_option maxRecDepth 8000 in
/-- C6 counterexample: the fixture run succeeds with the image renamed to
`J.jpg`, but the note body embeds an inline base64 data URL whose alt text
is the original basename; the post-rename file name `J.jpg` does not occur
anywhere in the note, so the embed reference does not match it. -/
theorem noteEmbed_not_renamed_name :
    (processImage sW envW fW bW).1 = .success 0 (toL "f/J.md") ncW (toL "J.jpg") ∧
    ¬ List.IsInfix (toL "J.jpg") ncW ∧
    ncW = composeNote pcW (mkImageEmbed (toL "c") (toL "image/jpeg") (toL "AQID")) :=
  ⟨rfl, by decide, by rfl⟩

/-- C6 (amended): the note body follows the fixed section order of the
template (company, position, phones, emails, website, address, rule, raw
text, embed); the asset is renamed to `<safeName>.<extension>` before the
note is created; and the embed written into the note is the inline base64
data URL built from the file's ORIGINAL basename and the MIME type derived
from its extension — it does not reference the renamed file. -/
theorem noteMaterialize_amended (s : Settings) (e : Env) (f : TFile)
    (b : List (Fin 256)) :
    (∀ pc emb, composeNote pc emb = renderSpec pc emb) ∧
    (∀ r p nc img, (processImage s e f b).1 = .success r p nc img →
      ∃ parsed b64 nets,
        nc = composeNote parsed (mkImageEmbed f.basename (getMimeType f) b64) ∧
        img = sanitizeFileName (contactName parsed f) ++ toL "." ++ f.extension ∧
        (processImage s e f b).2 = nets ++
          [.vaultRename (f.basename ++ toL "." ++ f.extension) img,
           .vaultCreate p nc, .vaultDelete img] ∧
        allNet nets) := by
  refine ⟨composeNote_eq_renderSpec, ?_⟩
  intro r p nc img ho
  rcases processImage_shape s e f b with
    ⟨⟨st, h1⟩, _⟩ | ⟨h1, _⟩ | ⟨⟨st, h1⟩, _⟩ | ⟨⟨er, h1⟩, _⟩ | ⟨h1, _⟩ |
    ⟨r2, p2, nc2, img2, nets, parsed, b64, h1, heff, hn, hnc, himg, hpath, hcr⟩
  case _ | _ | _ | _ | _ =>
    rw [ho] at h1
    exact Outcome.noConfusion h1
  case _ =>
    rw [ho] at h1
    injection h1 with h1r h1p h1nc h1img
    subst h1r h1p h1nc h1img
    exact ⟨parsed, b64, nets, hnc, himg, heff, hn⟩

/-- C6 witness: the fixture run instantiates the amended statement. -/
theorem noteMaterialize_amended_witness :
    (composeNote pcW (toL "e") = renderSpec pcW (toL "e")) ∧
    (∃ parsed b64 nets,
      ncW = composeNote parsed (mkImageEmbed fW.basename (getMimeType fW) b64) ∧
      toL "J.jpg" = sanitizeFileName (contactName parsed fW) ++ toL "." ++ fW.extension ∧
      (processImage sW envW fW bW).2 = nets ++
        [.vaultRename (fW.basename ++ toL "." ++ fW.extension) (toL "J.jpg"),
         .vaultCreate (toL "f/J.md") ncW, .vaultDelete (toL "J.jpg")] ∧
      allNet nets) :=
  ⟨(noteMaterialize_amended sW envW fW bW).1 pcW (toL "e"),
   (noteMaterialize_amended sW envW fW bW).2 0 (toL "f/J.md") ncW (toL "J.jpg") rfl⟩

theorem digitChar_toNat : ∀ n, n < 10 → (digitChar n).toNat = 48 + n := by
  decide

theorem natToDecimal_lt10 (n : Nat) (h : n < 10) : natToDecimal n = [digitChar n] := by
  match n with
  | 0 => rfl
  | m + 1 =>
    rw [natToDecimal, natToDecimalGo, if_pos h]

theorem natToDecimalGo_spec :
    ∀ n fuel acc, n ≤ fuel → natToDecimalGo fuel n acc = natToDecimal n ++ acc := by
  intro n
  induction n using Nat.strong_induction_on with
  | _ n ih =>
    intro fuel acc hf
    by_cases h10 : n < 10
    · have hbase : ∀ f2 acc2, natToDecimalGo f2 n acc2 = digitChar n :: acc2 := by
        intro f2 acc2
        cases f2 with
        | zero => rfl
        | succ f => rw [natToDecimalGo, if_pos h10]
      rw [hbase, natToDecimal_lt10 n h10]
      rfl
    · obtain ⟨f, rfl⟩ : ∃ f, fuel = f + 1 := ⟨fuel - 1, by omega⟩
      rw [natToDecimalGo, if_neg h10,
        ih (n / 10) (Nat.div_lt_self (by omega) (by omega)) f _ (by omega)]
      obtain ⟨m, rfl⟩ : ∃ m, n = m + 1 := ⟨n - 1, by omega⟩
      conv_rhs =>
        rw [natToDecimal, natToDecimalGo, if_neg h10,
          ih ((m + 1) / 10) (Nat.div_lt_self (by omega) (by omega)) m _ (by omega)]
      simp [List.append_assoc]

theorem natToDecimal_ge10 (n : Nat) (h : 10 ≤ n) :
    natToDecimal n = natToDecimal (n / 10) ++ [digitChar (n % 10)] := by
  obtain ⟨m, rfl⟩ : ∃ m, n = m + 1 := ⟨n - 1, by omega⟩
  rw [natToDecimal, natToDecimalGo, if_neg (by omega),
    natToDecimalGo_spec ((m + 1) / 10) m _ (by omega)]

theorem decodeDec_natToDecimal (n : Nat) : decodeDec (natToDecimal n) = n := by
  induction n using Nat.strong_induction_on with
  | _ n ih =>
    by_cases h10 : n < 10
    · rw [natToDecimal_lt10 n h10]
      simp [decodeDec, digitChar_toNat n h10]
    · rw [natToDecimal_ge10 n (by omega)]
      have hdiv := ih (n / 10) (Nat.div_lt_self (by omega) (by omega))
      unfold decodeDec at *
      rw [List.foldl_append, hdiv]
      simp [digitChar_toNat (n % 10) (by omega)]
      omega

theorem natToDecimal_inj {m n : Nat} (h : natToDecimal m = natToDecimal n) : m = n := by
  have := congrArg decodeDec h
  rwa [decodeDec_natToDecimal, decodeDec_natToDecimal] at this

theorem natToDecimal_length (n : Nat) : 1 ≤ (natToDecimal n).length := by
  by_cases h10 : n < 10
  · rw [natToDecimal_lt10 n h10]
    simp
  · rw [natToDecimal_ge10 n (by omega)]
    simp

theorem noteCandidate_inj (folder sn : List Char) :
    ∀ m n, noteCandidate folder sn m = noteCandidate folder sn n → m = n := by
  intro m n h
  match m, n with
  | 0, 0 => rfl
  | 0, n + 1 =>
    exfalso
    have hlen := congrArg List.length h
    simp only [noteCandidate, List.length_append] at hlen
    have hd := natToDecimal_length (n + 1)
    have e1 : (toL "/").length = 1 := rfl
    have e2 : (toL ".md").length = 3 := rfl
    have e3 : (toL " (").length = 2 := rfl
    have e4 : (toL ").md").length = 4 := rfl
    omega
  | m + 1, 0 =>
    exfalso
    have hlen := congrArg List.length h
    simp only [noteCandidate, List.length_append] at hlen
    have hd := natToDecimal_length (m + 1)
    have e1 : (toL "/").length = 1 := rfl
    have e2 : (toL ".md").length = 3 := rfl
    have e3 : (toL " (").length = 2 := rfl
    have e4 : (toL ").md").length = 4 := rfl
    omega
  | m + 1, n + 1 =>
    simp only [noteCandidate] at h
    have h2 := List.append_cancel_left h
    have h3 := List.append_cancel_right h2
    rw [natToDecimal_inj h3]

theorem probeLoop_spec (paths : List (List Char)) (folder sn : List Char) :
    ∀ fuel n, (∃ k, n ≤ k ∧ k < n + fuel ∧ noteCandidate folder sn k ∉ paths) →
    ∃ m, probeLoop paths folder sn fuel n = noteCandidate folder sn m ∧
      n ≤ m ∧ noteCandidate folder sn m ∉ paths ∧
      ∀ j, n ≤ j → j < m → noteCandidate folder sn j ∈ paths := by
  intro fuel
  induction fuel with
  | zero =>
    rintro n ⟨k, hk1, hk2, _⟩
    omega
  | succ f ih =>
    intro n hex
    by_cases hmem : noteCandidate folder sn n ∈ paths
    · have hex2 : ∃ k, n + 1 ≤ k ∧ k < (n + 1) + f ∧ noteCandidate folder sn k ∉ paths := by
        obtain ⟨k, hk1, hk2, hk3⟩ := hex
        have hne : k ≠ n := fun he => hk3 (he ▸ hmem)
        exact ⟨k, by omega, by omega, hk3⟩
      rw [probeLoop, if_pos hmem]
      obtain ⟨m, h1, h2, h3, h4⟩ := ih (n + 1) hex2
      refine ⟨m, h1, by omega, h3, fun j hj1 hj2 => ?_⟩
      rcases Nat.eq_or_lt_of_le hj1 with he | hlt
      · rw [← he]
        exact hmem
      · exact h4 j hlt hj2
    · rw [probeLoop, if_neg hmem]
      exact ⟨n, rfl, le_rfl, hmem, fun j hj1 hj2 => by omega⟩

theorem exists_free_candidate (paths : List (List Char)) (folder sn : List Char) (n : Nat) :
    ∃ k, n ≤ k ∧ k < n + (paths.length + 1) ∧ noteCandidate folder sn k ∉ paths := by
  by_contra hno
  push_neg at hno
  have hsub : ((List.range (paths.length + 1)).map
      (fun i => noteCandidate folder sn (n + i))) ⊆ paths := by
    intro x hx
    simp only [List.mem_map, List.mem_range] at hx
    obtain ⟨i, hi, rfl⟩ := hx
    exact hno _ (by omega) (by omega)
  have hnd : ((List.range (paths.length + 1)).map
      (fun i => noteCandidate folder sn (n + i))).Nodup := by
    refine List.Nodup.map_on ?_ (List.nodup_range _)
    intro x _ y _ hxy
    have := noteCandidate_inj folder sn (n + x) (n + y) hxy
    omega
  have hle := (List.Nodup.subperm hnd hsub).length_le
  simp only [List.length_map, List.length_range] at hle
  omega

theorem removeBanned_eq_filter (l : List Char) :
    removeBanned l = l.filter (fun c => !isBannedFileChar c) := by
  induction l with
  | nil => rfl
  | cons c rest ih =>
    rw [removeBanned, List.filter_cons]
    by_cases hb : isBannedFileChar c
    · simp [hb, ih]
    · simp [hb, ih]

/-- C5: the note path is derived deterministically — the file-safe name is
the contact name with the characters `\\ / : " * ? < > |` removed and
trimmed (`contact` when empty), the target is `<folder>/<safeName>.md`, and
on collision the numbered variants ` (1)`, ` (2)`, … are probed linearly:
the returned path is the first free candidate, so an existing note is never
overwritten; with `f/Foo.md` and `f/Foo (1).md` present, name `Foo` yields
`f/Foo (2).md`. -/
theorem notePath_resolution_spec (paths : List (List Char)) (folder name : List Char) :
    (sanitizeFileName name =
      (if trimList (name.filter fun c => !isBannedFileChar c) = [] then toL "contact"
       else trimList (name.filter fun c => !isBannedFileChar c))) ∧
    (∃ n, resolveNotePath paths folder (sanitizeFileName name) =
        noteCandidate folder (sanitizeFileName name) n ∧
      noteCandidate folder (sanitizeFileName name) n ∉ paths ∧
      ∀ m, m < n → noteCandidate folder (sanitizeFileName name) m ∈ paths) ∧
    resolveNotePath paths folder (sanitizeFileName name) ∉ paths ∧
    resolveNotePath [toL "f/Foo.md", toL "f/Foo (1).md"] (toL "f") (toL "Foo") =
      toL "f/Foo (2).md" := by
  have hmain : ∃ n, resolveNotePath paths folder (sanitizeFileName name) =
        noteCandidate folder (sanitizeFileName name) n ∧
      noteCandidate folder (sanitizeFileName name) n ∉ paths ∧
      ∀ m, m < n → noteCandidate folder (sanitizeFileName name) m ∈ paths := by
    by_cases hbase : noteCandidate folder (sanitizeFileName name) 0 ∈ paths
    · obtain ⟨m, h1, h2, h3, h4⟩ := probeLoop_spec paths folder (sanitizeFileName name)
        (paths.length + 1) 1 (exists_free_candidate paths folder (sanitizeFileName name) 1)
      refine ⟨m, ?_, h3, ?_⟩
      · simp only [resolveNotePath]
        rw [if_pos hbase]
        exact h1
      · intro j hj
        cases j with
        | zero => exact hbase
        | succ j2 => exact h4 (j2 + 1) (by omega) hj
    · refine ⟨0, ?_, hbase, fun m hm => absurd hm (by omega)⟩
      simp only [resolveNotePath]
      rw [if_neg hbase]
  refine ⟨?_, hmain, ?_, ?_⟩
  · unfold sanitizeFileName
    rw [removeBanned_eq_filter]
  · obtain ⟨n, heq, hfree, _⟩ := hmain
    rw [heq]
    exact hfree
  · decide

theorem dropWhileIdem {α : Type} (p : α → Bool) (l : List α) :
    (l.dropWhile p).dropWhile p = l.dropWhile p := by
  induction l with
  | nil => rfl
  | cons c cs ih =>
    rw [List.dropWhile_cons]
    by_cases hc : p c = true
    · rw [if_pos hc]
      exact ih
    · rw [if_neg hc, List.dropWhile_cons, if_neg hc]

theorem lengthDropWhileLe {α : Type} (p : α → Bool) (l : List α) :
    (l.dropWhile p).length ≤ l.length := by
  induction l with
  | nil => exact le_rfl
  | cons c cs ih =>
    rw [List.dropWhile_cons]
    by_cases hc : p c = true
    · rw [if_pos hc]
      exact le_trans ih (by simp)
    · rw [if_neg hc]

theorem dropWhileSelfHead {α : Type} (p : α → Bool) (c : α) (rest : List α)
    (h : (c :: rest).dropWhile p = c :: rest) : p c = false := by
  by_contra hp
  rw [List.dropWhile_cons, if_pos (by revert hp; cases p c <;> simp)] at h
  have h1 := congrArg List.length h
  have h2 := lengthDropWhileLe p rest
  simp at h1
  omega

theorem trimRightDropWhile (X : List Char) (hX : X.dropWhile isJsWs = X) :
    ((X.reverse.dropWhile isJsWs).reverse).dropWhile isJsWs =
      (X.reverse.dropWhile isJsWs).reverse := by
  rcases hY : (X.reverse.dropWhile isJsWs).reverse with _ | ⟨c, cs⟩
  · rfl
  · have hXdecomp : X = (X.reverse.dropWhile isJsWs).reverse ++
        (X.reverse.takeWhile isJsWs).reverse := by
      conv_lhs => rw [← List.reverse_reverse X]
      conv_lhs =>
        rw [← List.takeWhile_append_dropWhile (p := isJsWs) (l := X.reverse)]
      rw [List.reverse_append]
    rw [hY] at hXdecomp
    have hc : isJsWs c = false := by
      have h2 := hX
      rw [hXdecomp, List.cons_append] at h2
      exact dropWhileSelfHead isJsWs c _ h2
    rw [List.dropWhile_cons, if_neg (by simp [hc])]

theorem trimList_idem (l : List Char) : trimList (trimList l) = trimList l := by
  have hA := dropWhileIdem isJsWs l
  have h1 : (trimList l).dropWhile isJsWs = trimList l :=
    trimRightDropWhile (l.dropWhile isJsWs) hA
  unfold trimList at h1 ⊢
  rw [h1, List.reverse_reverse, dropWhileIdem]

theorem trimList_ne_nil_of_head (c : Char) (rest : List Char) (h : isJsWs c = false) :
    trimList (c :: rest) ≠ [] := by
  intro hnil
  unfold trimList at hnil
  rw [List.dropWhile_cons, if_neg (by simp [h])] at hnil
  have h2 : (c :: rest).reverse.dropWhile isJsWs = [] := by
    simpa using congrArg List.reverse hnil
  rw [List.dropWhile_eq_nil_iff] at h2
  have := h2 c (by simp)
  rw [h] at this
  exact Bool.noConfusion this

theorem fenceExtract_trimmed (t g : List Char) (h : fenceExtract t = some g) :
    trimList g = g := by
  unfold fenceExtract at h
  rcases h1 : splitAtFence t with _ | r
  · rw [h1] at h
    exact Option.noConfusion h
  · rw [h1] at h
    dsimp only at h
    rcases h2 : takeToFence (dropJsonTag r) with _ | content
    · rw [h2] at h
      exact Option.noConfusion h
    · rw [h2] at h
      dsimp only at h
      have h3 : g = trimList content := (Option.some.inj h).symm
      rw [h3, trimList_idem]
theorem extractJsonBraces_ne_nil (t c : List Char) (h : extractJsonBraces t = some c) :
    c ≠ [] := by
  unfold extractJsonBraces at h
  rcases hfb : jsIndexOf openBrace t with _ | fb <;> rw [hfb] at h
  · dsimp only at h
    by_cases ht : trimList t = []
    · rw [if_pos ht] at h
      exact Option.noConfusion h
    · rw [if_neg ht] at h
      rw [← Option.some.inj h]
      exact ht
  · rcases hlb : jsLastIndexOf closeBrace t with _ | lb <;> rw [hlb] at h <;> dsimp only at h
    · by_cases ht : trimList t = []
      · rw [if_pos ht] at h
        exact Option.noConfusion h
      · rw [if_neg ht] at h
        rw [← Option.some.inj h]
        exact ht
    · by_cases hcmp : fb < lb
      · rw [if_pos hcmp] at h
        have h1 := List.findIdx?_eq_some_iff_findIdx_eq.mp hfb
        have hflt : fb < t.length := h1.1
        have h2 : t[fb] = openBrace := by
          have h3 := @List.findIdx_getElem _ (fun x => x = openBrace) t (h1.2 ▸ h1.1)
          simp only [h1.2] at h3
          exact of_decide_eq_true h3
        have h4 : t.drop fb = openBrace :: t.drop (fb + 1) := by
          rw [List.drop_eq_getElem_cons hflt, h2]
        have h5 : lb + 1 - fb = (lb - fb) + 1 := by omega
        rw [h4, h5, List.take_succ_cons] at h
        rw [← Option.some.inj h]
        exact trimList_ne_nil_of_head _ _ (by decide)
      · rw [if_neg hcmp] at h
        by_cases ht : trimList t = []
        · rw [if_pos ht] at h
          exact Option.noConfusion h
        · rw [if_neg ht] at h
          rw [← Option.some.inj h]
          exact ht
theorem extractJson_some_ne_nil (text c : List Char)
    (h : extractJsonFromText text = some c) : c ≠ [] := by
  unfold extractJsonFromText at h
  by_cases ht : text = []
  · rw [if_pos ht] at h
    exact Option.noConfusion h
  · rw [if_neg ht] at h
    dsimp only at h
    rcases hf : fenceExtract (trimList (stripLeadingBOM text)) with _ | g <;>
      rw [hf] at h <;> dsimp only at h
    · exact extractJsonBraces_ne_nil _ _ h
    · by_cases hg : g = []
      · rw [if_pos hg] at h
        exact extractJsonBraces_ne_nil _ _ h
      · rw [if_neg hg] at h
        rw [← Option.some.inj h, fenceExtract_trimmed _ _ hf]
        exact hg

/-- C2 counterexample: on a text whose fenced block has all-whitespace
content followed by a JSON object, the claim's priority rule would take the
(empty) fenced content as the candidate and raise `NoJsonFound`; the code
instead treats the empty capture group as falsy, falls through, and
extracts the brace slice. -/
theorem extractJson_fence_empty :
    fenceExtract (trimList (stripLeadingBOM (toL "``` ```\x7b\"a\":1\x7d"))) = some [] ∧
    extractJsonFromText (toL "``` ```\x7b\"a\":1\x7d") = some (toL "\x7b\"a\":1\x7d") ∧
    some (toL "\x7b\"a\":1\x7d") ≠ some (trimList ([] : List Char)) := by
  refine ⟨rfl, rfl, by decide⟩
/-- C2 (amended): JSON recovery follows the priority order — after BOM
strip and trim, a fenced block whose capture group is NON-EMPTY wins (an
all-whitespace fenced content is falsy and falls through, which is the one
divergence from the claim as stated); otherwise a `{`…later…`}` slice;
otherwise the trimmed text itself when non-empty.  `NoJsonFound` is raised
exactly when extraction yields no candidate, every extracted candidate is
non-empty, and `JsonParseFailure` (carrying the cleaned candidate and the
original text) is raised exactly when the host parse of the cleaned
candidate throws. -/
theorem extractJson_priority (parse : List Char → Option ParsedContact) (text : List Char) :
    (∀ g, text ≠ [] →
      fenceExtract (trimList (stripLeadingBOM text)) = some g → g ≠ [] →
      extractJsonFromText text = some (trimList g)) ∧
    (∀ fb lb, text ≠ [] →
      (fenceExtract (trimList (stripLeadingBOM text)) = none ∨
       fenceExtract (trimList (stripLeadingBOM text)) = some []) →
      jsIndexOf openBrace (trimList (stripLeadingBOM text)) = some fb →
      jsLastIndexOf closeBrace (trimList (stripLeadingBOM text)) = some lb →
      fb < lb →
      extractJsonFromText text =
        some (trimList (((trimList (stripLeadingBOM text)).drop fb).take (lb + 1 - fb)))) ∧
    (text ≠ [] →
      (fenceExtract (trimList (stripLeadingBOM text)) = none ∨
       fenceExtract (trimList (stripLeadingBOM text)) = some []) →
      (∀ fb lb, jsIndexOf openBrace (trimList (stripLeadingBOM text)) = some fb →
        jsLastIndexOf closeBrace (trimList (stripLeadingBOM text)) = some lb →
        ¬ fb < lb) →
      extractJsonFromText text =
        (if trimList (trimList (stripLeadingBOM text)) = [] then none
         else some (trimList (trimList (stripLeadingBOM text))))) ∧
    (tryParseJson parse text = .error .noJsonFound ↔ extractJsonFromText text = none) ∧
    (∀ c, extractJsonFromText text = some c →
      c ≠ [] ∧
      tryParseJson parse text =
        (match parse (cleanCandidate c) with
         | some v => .ok v
         | none => .error (.jsonParseFailure (cleanCandidate c) text))) := by
  refine ⟨?_, ?_, ?_, ?_, ?_⟩
  · intro g htext hfence hg
    unfold extractJsonFromText
    rw [if_neg htext]
    dsimp only
    rw [hfence]
    dsimp only
    rw [if_neg hg]
  · intro fb lb htext hfence hfb hlb hcmp
    unfold extractJsonFromText
    rw [if_neg htext]
    dsimp only
    rcases hfence with hf | hf <;> rw [hf] <;> dsimp only
    · unfold extractJsonBraces
      rw [hfb, hlb]
      dsimp only
      rw [if_pos hcmp]
    · rw [if_pos rfl]
      unfold extractJsonBraces
      rw [hfb, hlb]
      dsimp only
      rw [if_pos hcmp]
  · intro htext hfence hfail
    have hbr : extractJsonBraces (trimList (stripLeadingBOM text)) =
        (if trimList (trimList (stripLeadingBOM text)) = [] then none
         else some (trimList (trimList (stripLeadingBOM text)))) := by
      unfold extractJsonBraces
      rcases hfb : jsIndexOf openBrace (trimList (stripLeadingBOM text)) with _ | fb <;>
        rcases hlb : jsLastIndexOf closeBrace (trimList (stripLeadingBOM text)) with _ | lb <;>
        dsimp only
      rw [if_neg (hfail fb lb hfb hlb)]
    unfold extractJsonFromText
    rw [if_neg htext]
    dsimp only
    rcases hfence with hf | hf <;> rw [hf] <;> dsimp only
    · exact hbr
    · rw [if_pos rfl]
      exact hbr
  · constructor
    · intro h
      rcases he : extractJsonFromText text with _ | c
      · rfl
      · unfold tryParseJson at h
        rw [he] at h
        dsimp only at h
        rcases hp : parse (cleanCandidate c) with _ | v <;> rw [hp] at h <;> dsimp only at h
        · exact absurd (Except.error.inj h) (fun hq => JsonParseError.noConfusion hq)
        · exact Except.noConfusion h
    · intro he
      unfold tryParseJson
      rw [he]
  · intro c hc
    refine ⟨extractJson_some_ne_nil text c hc, ?_⟩
    unfold tryParseJson
    rw [hc]

/-- C2 witness: concrete inputs exercising the fence branch, the
`NoJsonFound` condition and the parse-failure branch. -/
theorem extractJson_priority_witness :
    extractJsonFromText (toL "```json x ```") = some (trimList (toL "x")) ∧
    (tryParseJson (fun _ => none) (toL " ") = .error .noJsonFound ↔
      extractJsonFromText (toL " ") = none) ∧
    (toL "\x7ba\x7d" ≠ [] ∧
      tryParseJson (fun _ => none) (toL "\x7ba\x7d") =
        (match (fun (_ : List Char) => (none : Option ParsedContact))
            (cleanCandidate (toL "\x7ba\x7d")) with
         | some v => .ok v
         | none => .error (.jsonParseFailure (cleanCandidate (toL "\x7ba\x7d")) (toL "\x7ba\x7d")))) :=
  ⟨(extractJson_priority (fun _ => none) (toL "```json x ```")).1 (toL "x")
      (by decide) (by decide) (by decide),
   (extractJson_priority (fun _ => none) (toL " ")).2.2.2.1,
   (extractJson_priority (fun _ => none) (toL "\x7ba\x7d")).2.2.2.2 (toL "\x7ba\x7d")
      (by decide)⟩

end ImageToText
